import Mathlib

/-!
Shallow embedding of the Zep editor session orchestrator
(`src/contrib/zep/include/zep/editor.h`) together with proofs about its
registries, message bus, mouse-capture slot, tab topology and background
job pool.  Members whose bodies appear inline in the header are translated
from that code; members that the header only declares are modelled from the
specification, each such definition carrying a doc comment that starts with
`Modelled from the spec:`.

Pointers are modelled as numeric identities (`Nat`), C++ `float` fields as
`Rat`, optional/null pointers as `Option Nat`.
-/

namespace Zep

/-- The `ZepMouseButton` enum (editor.h:77-85). -/
inductive ZepMouseButton where
  | Left
  | Right
  | Middle
  | Button4
  | Button5
  | Unknown
deriving DecidableEq, Repr

/-- The `Msg` enum of message kinds (editor.h:87-105).  `UserEvent` starts the
user-defined range (`= 100`); the numeric values play no role in the claims. -/
inductive Msg where
  | HandleCommand
  | RequestQuit
  | GetClipBoard
  | SetClipBoard
  | MouseMove
  | MouseDown
  | MouseUp
  | Buffer
  | ComponentChanged
  | Tick
  | ConfigChanged
  | ToolTip
  | MouseScroll
  | HyperlinkClick
  | UserEvent
deriving DecidableEq, Repr

/-- 2-d float vector `NVec2f`; its default constructor zero-initializes. -/
structure NVec2f where
  x : Rat
  y : Rat
deriving DecidableEq, Repr

def NVec2f.zero : NVec2f := ⟨0, 0⟩

/-- The `ZepMessage` envelope (editor.h:108-141).  Fields with an in-class
initializer (`handled = false`, `clicks = 1`, `fval = 0.f`,
`button = Unknown`, `pComponent = nullptr`) are represented directly.
`uint32_t modifiers` has NO in-class initializer, so a constructor that does
not mention it leaves it indeterminate: it is modelled as `Option Nat`, with
`none` standing for the indeterminate (uninitialized) value. -/
structure ZepMessage where
  messageId : Msg
  str : String
  handled : Bool
  pos : NVec2f
  clicks : Int
  fval : Rat
  button : ZepMouseButton
  modifiers : Option Nat
  pComponent : Option Nat
deriving DecidableEq, Repr

/-- `ZepMessage(Msg id, const std::string& strIn = "")` (editor.h:111-115):
initializes `messageId` and `str`; every other field takes its in-class
initializer; `modifiers` is left uninitialized. -/
def ZepMessage.mkString (id : Msg) (strIn : String := "") : ZepMessage :=
  { messageId := id
    str := strIn
    handled := false
    pos := NVec2f.zero
    clicks := 1
    fval := 0
    button := ZepMouseButton.Unknown
    modifiers := none
    pComponent := none }

/-- `ZepMessage(Msg id, const NVec2f& p, ZepMouseButton b, uint32_t m, int c)`
(editor.h:117-124): the only constructor whose init list assigns
`modifiers`. -/
def ZepMessage.mkMouse (id : Msg) (p : NVec2f)
    (b : ZepMouseButton := ZepMouseButton.Unknown) (m : Nat := 0)
    (c : Int := 1) : ZepMessage :=
  { messageId := id
    str := ""
    handled := false
    pos := p
    clicks := c
    fval := 0
    button := b
    modifiers := some m
    pComponent := none }

/-- `ZepMessage(Msg id, IZepComponent* pComp)` (editor.h:126-130): initializes
`messageId` and `pComponent`; `modifiers` is left uninitialized. -/
def ZepMessage.mkComponent (id : Msg) (pComp : Nat) : ZepMessage :=
  { messageId := id
    str := ""
    handled := false
    pos := NVec2f.zero
    clicks := 1
    fval := 0
    button := ZepMouseButton.Unknown
    modifiers := none
    pComponent := some pComp }

/-! ## Mouse capture slot

`ZepComponent* m_mouseCaptureComponent` (editor.h:507) is a single pointer:
modelled as `Option Nat` (a slot holding at most one component identity). -/

/-- `ZepEditor::IsMouseCaptured(const ZepComponent* by)` (editor.h:349-354),
translated from the inline body:
`if (by) return slot == nullptr || slot == by; return slot != nullptr;`.
The parameter `by` is renamed `byComp` (`by` is a Lean keyword). -/
def IsMouseCaptured (slot : Option Nat) (byComp : Option Nat := none) : Bool :=
  match byComp with
  | some b => slot == none || slot == some b
  | none => slot != none

/-- Modelled from the spec: `ZepEditor::CaptureMouse` (declared editor.h:348,
body not in src).  The mouse-capture slot has acquire/release semantics:
an acquire fails — the previously captured owner remains — if another
component already holds capture, unless the request is from the current
holder; a release by the holder frees the slot. -/
def CaptureMouse (slot : Option Nat) (pComponent : Nat) (capture : Bool) :
    Option Nat :=
  if capture then
    match slot with
    | none => some pComponent
    | some holder => some holder
  else
    if slot = some pComponent then none else slot

/-! ## Notify clients and message broadcast

`std::set<IZepComponent*> m_notifyClients` (editor.h:464) is modelled as a
strictly sorted list of component identities. -/

/-- `std::set` insertion, as performed by `RegisterCallback` (editor.h:317-320,
inline body `m_notifyClients.insert(pClient)`): ordered insert that leaves an
already-present element alone. -/
def setInsert (x : Nat) : List Nat → List Nat
  | [] => [x]
  | y :: ys =>
    if x < y then x :: y :: ys
    else if x = y then y :: ys
    else y :: setInsert x ys

/-- `std::set` erasure, as performed by `UnRegisterCallback`
(editor.h:321-324, inline body `m_notifyClients.erase(pClient)`): removes the
element if present, otherwise does nothing. -/
def setErase (x : Nat) (s : List Nat) : List Nat :=
  s.filter (fun y => y ≠ x)

/-- Modelled from the spec: `ZepEditor::Broadcast` (declared editor.h:313, body
not in src).  The bus snapshots the listener set before iterating, then
notifies each snapshotted listener in turn; a listener's `Notify` may call
`UnRegisterCallback` (on itself or others), which changes the live set but not
the in-flight snapshot.  `unregs c` gives the listeners that component `c`
unregisters inside its own `Notify`.  Returns the delivery log (in snapshot
order) and the live listener set after the broadcast. -/
def Broadcast (unregs : Nat → List Nat) (clients : List Nat) :
    List Nat × List Nat :=
  (clients.foldl
    (fun acc c => (acc.1 ++ [c], (unregs c).foldl (fun s x => setErase x s) acc.2))
    ([], clients))

/-! ## Buffer registry

`tBuffers m_buffers` (editor.h:489, a deque of shared pointers) is modelled as
a list of buffer records; shared-pointer identity becomes the stable numeric
`handle` (cf. `GetBufferFromHandle`, editor.h:445). -/

/-- A text buffer as the registry sees it: stable handle, display name,
optional filesystem path (the deduplication key) and file flags.  The text
content, cursors and motions are out of scope. -/
structure ZepBuffer where
  handle : Nat
  name : String
  filePath : Option String
  fileFlags : Nat
deriving DecidableEq, Repr

/-- The registry state: the buffer list plus the next fresh handle. -/
structure BufferRegistry where
  buffers : List ZepBuffer
  nextHandle : Nat
deriving DecidableEq, Repr

def BufferRegistry.empty : BufferRegistry := ⟨[], 0⟩

/-- Modelled from the spec: `ZepEditor::FindFileBuffer` (declared
editor.h:334, body not in src): the registered buffer whose resolved path is
`p`, if any. -/
def FindFileBuffer (r : BufferRegistry) (p : String) : Option ZepBuffer :=
  r.buffers.find? (fun b => b.filePath == some p)

/-- Modelled from the spec: `ZepEditor::GetFileBuffer` (declared editor.h:329,
body not in src): returns the existing buffer for the path if present;
otherwise, if `create` is true, constructs and registers a new buffer for the
path; if `create` is false and none exists, returns a null result (not an
error).  Returns the buffer (or `none`) together with the updated
registry. -/
def GetFileBuffer (r : BufferRegistry) (p : String) (fileFlags : Nat)
    (create : Bool) : Option ZepBuffer × BufferRegistry :=
  match FindFileBuffer r p with
  | some pBuffer => (some pBuffer, r)
  | none =>
    if create then
      let pBuffer : ZepBuffer := ⟨r.nextHandle, p, some p, fileFlags⟩
      (some pBuffer, ⟨pBuffer :: r.buffers, r.nextHandle + 1⟩)
    else
      (none, r)

/-- Modelled from the spec: `ZepEditor::GetEmptyBuffer` (declared
editor.h:330, body not in src): always creates a new buffer that is unnamed
on disk (no file path); never deduplicates by name. -/
def GetEmptyBuffer (r : BufferRegistry) (name : String) (fileFlags : Nat) :
    ZepBuffer × BufferRegistry :=
  let pBuffer : ZepBuffer := ⟨r.nextHandle, name, none, fileFlags⟩
  (pBuffer, ⟨pBuffer :: r.buffers, r.nextHandle + 1⟩)

/-- Modelled from the spec: the registry half of `ZepEditor::RemoveBuffer`
(declared editor.h:331, body not in src): the buffer is removed from the
registry.  (Window detachment is modelled separately on `WindowState`.) -/
def BufferRegistry.remove (r : BufferRegistry) (h : Nat) : BufferRegistry :=
  ⟨r.buffers.filter (fun b => b.handle ≠ h), r.nextHandle⟩

/-- Registry states reachable from the empty registry through the public
buffer operations. -/
inductive ReachableReg : BufferRegistry → Prop where
  | init : ReachableReg BufferRegistry.empty
  | getFile (r : BufferRegistry) (p : String) (fl : Nat) (c : Bool) :
      ReachableReg r → ReachableReg (GetFileBuffer r p fl c).2
  | getEmpty (r : BufferRegistry) (n : String) (fl : Nat) :
      ReachableReg r → ReachableReg (GetEmptyBuffer r n fl).2
  | remove (r : BufferRegistry) (h : Nat) :
      ReachableReg r → ReachableReg (r.remove h)

/-- No two distinct registered buffers share a resolved file path. -/
def pathUnique (r : BufferRegistry) : Prop :=
  r.buffers.Pairwise (fun a b => ∀ p, a.filePath = some p → b.filePath ≠ some p)

/-- Concrete listener behavior: component 2 unregisters itself inside its own
notification. -/
def unregSelfTwo : Nat → List Nat := fun c => if c = 2 then [2] else []

/-- Concrete listener behavior: a listener that unregisters nobody. -/
def unregNobody : Nat → List Nat := fun _ => []

/-! ## Windows and buffer removal

`ZepWindow` instances live inside tab windows; each is a view onto exactly
one buffer (a non-owning back-reference, modelled as the buffer handle). -/

/-- A window: its identity and the handle of the buffer it views. -/
structure ZepWindow where
  winId : Nat
  bufferHandle : Nat
deriving DecidableEq, Repr

/-- The buffer/window state `RemoveBuffer` acts on: the buffer handles in
most-recently-used order (head = most recently used) and every window across
every tab window. -/
structure WindowState where
  buffers : List Nat
  windows : List ZepWindow
deriving DecidableEq, Repr

/-- Modelled from the spec: `ZepEditor::FindBufferWindows` (declared
editor.h:332, body not in src): every window, across every tab, currently
viewing the given buffer. -/
def FindBufferWindows (s : WindowState) (h : Nat) : List ZepWindow :=
  s.windows.filter (fun w => w.bufferHandle == h)

/-- Modelled from the spec: `ZepEditor::GetMRUBuffer` (declared editor.h:327,
body not in src): the most recently activated buffer, or null if none
exists. -/
def GetMRUBuffer (s : WindowState) : Option Nat :=
  s.buffers.head?

/-- Modelled from the spec: `ZepEditor::GetActiveBuffer` (declared
editor.h:333, body not in src): the buffer of the active window; null when
no buffer exists.  Recency makes this the MRU buffer. -/
def GetActiveBuffer (s : WindowState) : Option Nat :=
  s.buffers.head?

/-- Modelled from the spec: `ZepEditor::RemoveBuffer` (declared editor.h:331,
body not in src): first detach every window viewing the buffer — redirect it
to the most-recently-used remaining buffer, or close the window if no buffer
remains — then remove the buffer from the registry.  Removing the last
buffer leaves a valid empty state with no active buffer. -/
def RemoveBuffer (s : WindowState) (h : Nat) : WindowState :=
  let remaining := s.buffers.filter (fun x => x ≠ h)
  match remaining.head? with
  | some mru =>
    ⟨remaining,
      s.windows.map (fun w =>
        if w.bufferHandle = h then ⟨w.winId, mru⟩ else w)⟩
  | none =>
    ⟨[], s.windows.filter (fun w => w.bufferHandle ≠ h)⟩

/-! ## Ex-command registry

`std::map<std::string, std::shared_ptr<ZepExCommand>> m_mapExCommands`
(editor.h:472), keyed by the command name (`ExCommandName`, editor.h:252);
the command objects themselves are modelled by numeric identities. -/

/-- Modelled from the spec: `ZepEditor::FindExCommand` (declared editor.h:296,
body not in src): the command registered under the given name, if any. -/
def FindExCommand (m : List (String × Nat)) (strName : String) : Option Nat :=
  (m.find? (fun kv => kv.1 == strName)).map (fun kv => kv.2)

/-- Modelled from the spec: `ZepEditor::RegisterExCommand` (declared
editor.h:295, body not in src): the registry is keyed by name and must be
unique; duplicate registration is a configuration error — reported, and the
triggering request is a no-op preserving the prior valid state. -/
def RegisterExCommand (m : List (String × Nat)) (strName : String)
    (cmd : Nat) : List (String × Nat) :=
  match FindExCommand m strName with
  | some _ => m
  | none => (strName, cmd) :: m

/-! ## Background job pool

`ThreadPool` (editor.h:440, `zep/mcommon/threadpool.h` not in src) and the
`ZepEditorFlags::DisableThreads` startup flag (editor.h:72).  A unit of work
is a closure `Unit → Nat`; a submission returns a numeric handle through
which the result becomes visible. -/

/-- The job-pool state: the mode flag, finished results keyed by handle,
queued work (threads mode only) and the next fresh handle. -/
structure JobPool where
  disableThreads : Bool
  completed : List (Nat × Nat)
  pending : List (Nat × (Unit → Nat))
  nextId : Nat

/-- A fresh pool in the given mode. -/
def mkJobPool (dis : Bool) : JobPool :=
  ⟨dis, [], [], 0⟩

/-- Modelled from the spec: submitting a unit of work.  With
`DisableThreads` set, all submitted work executes synchronously/inline;
otherwise it is queued for a worker and its result becomes visible before
the orchestrator is torn down.  Returns the future-like handle and the new
pool state. -/
def Submit (d : JobPool) (work : Unit → Nat) : Nat × JobPool :=
  if d.disableThreads then
    (d.nextId, ⟨d.disableThreads, (d.nextId, work ()) :: d.completed,
      d.pending, d.nextId + 1⟩)
  else
    (d.nextId, ⟨d.disableThreads, d.completed,
      (d.nextId, work) :: d.pending, d.nextId + 1⟩)

/-- Submit a batch of work items in order. -/
def SubmitAll (d : JobPool) (jobs : List (Unit → Nat)) : JobPool :=
  jobs.foldl (fun d w => (Submit d w).2) d

/-- Query the result of a submission by its handle. -/
def QueryResult (d : JobPool) (h : Nat) : Option Nat :=
  (d.completed.find? (fun kv => kv.1 == h)).map (fun kv => kv.2)

/-- Modelled from the spec: teardown/drain of the pool — every outstanding
unit of work completes (its result becomes visible) before the orchestrator
is torn down. -/
def Drain (d : JobPool) : JobPool :=
  ⟨d.disableThreads,
    d.pending.map (fun kv => (kv.1, kv.2 ())) ++ d.completed, [], d.nextId⟩

/-- Reference semantics both modes refine: run the jobs in submission order,
numbering from `n`, consing each result onto `c`. -/
def runJobs (n : Nat) (c : List (Nat × Nat)) : List (Unit → Nat) →
    List (Nat × Nat)
  | [] => c
  | w :: ws => runJobs (n + 1) ((n, w ()) :: c) ws

/-- Queue the jobs in submission order, numbering from `n`, consing onto `p`:
the pending queue a threads-enabled pool accumulates. -/
def pendJobs (n : Nat) (p : List (Nat × (Unit → Nat))) : List (Unit → Nat) →
    List (Nat × (Unit → Nat))
  | [] => p
  | w :: ws => pendJobs (n + 1) ((n, w) :: p) ws

/-- Concrete unit of work for witnesses. -/
def workA : Unit → Nat := fun _ => 41

/-- Concrete unit of work for witnesses. -/
def workB : Unit → Nat := fun _ => 42

/-! ## Tab window topology

`tTabWindows m_tabWindows` (editor.h:484) is the orchestrator's ordered
collection of tab windows, `ZepTabWindow* m_pActiveTabWindow` (editor.h:485)
the active one; tab windows are modelled by numeric identities. -/

/-- The tab-window topology state: the ordered collection, the active tab
window (if any) and the next fresh identity. -/
structure TabState where
  tabWindows : List Nat
  activeTab : Option Nat
  nextId : Nat
deriving DecidableEq, Repr

/-- Modelled from the spec: `ZepEditor::AddTabWindow` (declared editor.h:375,
body not in src): a new tab window enters the orchestrator's ordered
collection and becomes active. -/
def AddTabWindow (s : TabState) : Nat × TabState :=
  (s.nextId, ⟨s.tabWindows ++ [s.nextId], some s.nextId, s.nextId + 1⟩)

/-- Modelled from the spec: `ZepEditor::EnsureTab` (declared editor.h:448,
body not in src): guarantees at least one tab window exists, creating one on
demand, so the orchestrator never stays at zero tab windows after
initialization. -/
def EnsureTab (s : TabState) : TabState :=
  if s.tabWindows.isEmpty then (AddTabWindow s).2 else s

/-- Modelled from the spec: `ZepEditor::SetCurrentTabWindow` (declared
editor.h:373, body not in src): a member of the collection becomes active; a
non-member request is a no-op. -/
def SetCurrentTabWindow (s : TabState) (t : Nat) : TabState :=
  if t ∈ s.tabWindows then ⟨s.tabWindows, some t, s.nextId⟩ else s

/-- The first of two options that is populated. -/
def firstSome (a b : Option Nat) : Option Nat :=
  match a with
  | some x => some x
  | none => b

/-- Remove the first occurrence of `t` from the list and compute the
deterministic neighbor to promote: the previous tab if one exists, else the
next, else none. -/
def removePromote : List Nat → Nat → List Nat × Option Nat
  | [], _ => ([], none)
  | x :: xs, t =>
    if x = t then (xs, xs.head?)
    else if xs.head? = some t then (x :: xs.tail, some x)
    else
      let r := removePromote xs t
      (x :: r.1, r.2)

/-- Modelled from the spec: `ZepEditor::RemoveTabWindow` (declared
editor.h:376, body not in src): removes a member tab window; if it was
active, the deterministic neighbor (previous, else next) is promoted; and
`EnsureTab` keeps the collection non-empty — when the last tab window goes
away a fresh one is created and becomes active. -/
def RemoveTabWindow (s : TabState) (t : Nat) : TabState :=
  if t ∈ s.tabWindows then
    EnsureTab
      ⟨(removePromote s.tabWindows t).1,
        if s.activeTab = some t then (removePromote s.tabWindows t).2
        else s.activeTab,
        s.nextId⟩
  else s

/-- The active tab window, if any, is a member of the tab-window
collection. -/
def activeInCollection (s : TabState) : Prop :=
  match s.activeTab with
  | none => True
  | some u => u ∈ s.tabWindows

/-- The tab-topology invariant: a non-empty duplicate-free collection of
identities below the fresh counter, with the active tab window (if any) a
member of the collection. -/
def TabInv (s : TabState) : Prop :=
  s.tabWindows ≠ [] ∧ s.tabWindows.Nodup ∧
  (∀ x ∈ s.tabWindows, x < s.nextId) ∧
  (∀ t, s.activeTab = some t → t ∈ s.tabWindows)

/-- Tab-topology states reachable after initialization (which runs
`EnsureTab`) through the public tab-window operations. -/
inductive ReachableTab : TabState → Prop where
  | init : ReachableTab (EnsureTab ⟨[], none, 0⟩)
  | add (s : TabState) : ReachableTab s → ReachableTab (AddTabWindow s).2
  | remove (s : TabState) (t : Nat) :
      ReachableTab s → ReachableTab (RemoveTabWindow s t)
  | setCurrent (s : TabState) (t : Nat) :
      ReachableTab s → ReachableTab (SetCurrentTabWindow s t)
  | ensure (s : TabState) : ReachableTab s → ReachableTab (EnsureTab s)

end Zep

namespace Zep

/-! ## Theorems -/

/-- C10: the `(Msg, string)` and `(Msg, IZepComponent*)` constructors of
`ZepMessage` initialize `handled` to `false`, `clicks` to `1` and `button` to
`Unknown` but leave `modifiers` with no initializer (modelled `none`); only
the mouse-event constructor assigns `modifiers`. -/
theorem zepMessage_ctor_init_fields :
    ∀ (id : Msg) (s : String) (comp : Nat) (p : NVec2f) (b : ZepMouseButton)
      (m : Nat) (c : Int),
      (ZepMessage.mkString id s).handled = false ∧
      (ZepMessage.mkString id s).clicks = 1 ∧
      (ZepMessage.mkString id s).button = ZepMouseButton.Unknown ∧
      (ZepMessage.mkString id s).modifiers = none ∧
      (ZepMessage.mkComponent id comp).handled = false ∧
      (ZepMessage.mkComponent id comp).clicks = 1 ∧
      (ZepMessage.mkComponent id comp).button = ZepMouseButton.Unknown ∧
      (ZepMessage.mkComponent id comp).modifiers = none ∧
      (ZepMessage.mkMouse id p b m c).modifiers = some m := by
  intro id s comp p b m c
  refine ⟨rfl, rfl, rfl, rfl, rfl, rfl, rfl, rfl, rfl⟩

theorem mem_setInsert {y x : Nat} {s : List Nat} :
    y ∈ setInsert x s ↔ y = x ∨ y ∈ s := by
  induction s with
  | nil => simp [setInsert]
  | cons a as ih =>
    by_cases hlt : x < a
    · simp [setInsert, hlt, List.mem_cons]
    · by_cases heq : x = a
      · subst heq
        simp [setInsert, hlt, List.mem_cons]
      · simp only [setInsert, if_neg hlt, if_neg heq, List.mem_cons, ih]
        tauto

theorem setInsert_idem (x : Nat) (s : List Nat) :
    setInsert x (setInsert x s) = setInsert x s := by
  induction s with
  | nil => simp [setInsert]
  | cons a as ih =>
    by_cases hlt : x < a
    · simp [setInsert, hlt, lt_irrefl]
    · by_cases heq : x = a
      · subst heq
        simp [setInsert, hlt, lt_irrefl]
      · simp [setInsert, hlt, heq, ih]

theorem notMem_setErase (x : Nat) (s : List Nat) : x ∉ setErase x s := by
  simp [setErase]

theorem setErase_of_notMem {x : Nat} {s : List Nat} (h : x ∉ s) :
    setErase x s = s := by
  simp only [setErase]
  exact List.filter_eq_self.mpr (by
    intro a ha
    simp only [ne_eq, decide_eq_true_eq]
    exact fun hax => h (hax ▸ ha))

theorem setErase_idem (x : Nat) (s : List Nat) :
    setErase x (setErase x s) = setErase x s :=
  setErase_of_notMem (notMem_setErase x s)

theorem mem_eraseFold {y : Nat} :
    ∀ (l : List Nat) (s : List Nat),
      y ∈ l.foldl (fun s x => setErase x s) s → y ∈ s := by
  intro l
  induction l with
  | nil => intro s h; exact h
  | cons a as ih =>
    intro s h
    have := ih (setErase a s) h
    simp only [setErase, List.mem_filter] at this
    exact this.1

theorem notMem_eraseFold_of_mem {x : Nat} :
    ∀ (l : List Nat) (s : List Nat),
      x ∈ l → x ∉ l.foldl (fun s x => setErase x s) s := by
  intro l
  induction l with
  | nil => intro s h; cases h
  | cons a as ih =>
    intro s h hmem
    rcases List.mem_cons.mp h with heq | htl
    · subst heq
      exact notMem_setErase x s (mem_eraseFold as _ hmem)
    · exact ih _ htl hmem

theorem broadcast_delivered_aux (unregs : Nat → List Nat) :
    ∀ (cs : List Nat) (d s : List Nat),
      (cs.foldl
        (fun acc c =>
          (acc.1 ++ [c], (unregs c).foldl (fun s x => setErase x s) acc.2))
        (d, s)).1 = d ++ cs := by
  intro cs
  induction cs with
  | nil => intro d s; simp
  | cons a as ih =>
    intro d s
    simp only [List.foldl_cons]
    rw [ih]
    simp

/-- The delivery log of a broadcast is exactly the snapshot of the listener
set taken when the broadcast started. -/
theorem broadcast_delivered (unregs : Nat → List Nat) (clients : List Nat) :
    (Broadcast unregs clients).1 = clients := by
  simpa using broadcast_delivered_aux unregs clients [] clients

theorem broadcast_live_subset {y : Nat} (unregs : Nat → List Nat) :
    ∀ (cs : List Nat) (d s : List Nat),
      y ∈ (cs.foldl
        (fun acc c =>
          (acc.1 ++ [c], (unregs c).foldl (fun s x => setErase x s) acc.2))
        (d, s)).2 → y ∈ s := by
  intro cs
  induction cs with
  | nil => intro d s h; exact h
  | cons a as ih =>
    intro d s h
    exact mem_eraseFold (unregs a) s (ih _ _ h)

/-- A listener that unregisters itself during its own notification is absent
from the live listener set when the broadcast finishes. -/
theorem broadcast_self_unregister {x : Nat} (unregs : Nat → List Nat)
    (clients : List Nat) (hmem : x ∈ clients) (hself : x ∈ unregs x) :
    x ∉ (Broadcast unregs clients).2 := by
  unfold Broadcast
  suffices h : ∀ (cs : List Nat) (d s : List Nat), x ∈ cs →
      x ∉ (cs.foldl
        (fun acc c =>
          (acc.1 ++ [c], (unregs c).foldl (fun s x => setErase x s) acc.2))
        (d, s)).2 by
    exact h clients [] clients hmem
  intro cs
  induction cs with
  | nil => intro d s h; cases h
  | cons a as ih =>
    intro d s h hmem2
    rcases List.mem_cons.mp h with heq | htl
    · subst heq
      exact notMem_eraseFold_of_mem (unregs x) s hself
        (broadcast_live_subset unregs as _ _ hmem2)
    · exact ih _ _ htl hmem2

/-- C3: broadcasting to listeners `{l1, l2}` where `l2` unregisters itself
inside its own `Notify` still delivers to `l1` (and to `l2`) in that same
broadcast — the broadcast is a total function, so it completes without
fault — `l2` is out of the live set afterwards and receives nothing in any
subsequent broadcast; and registering a listener twice, or unregistering one
twice or when absent, leaves the listener set as a single add/remove
would. -/
theorem broadcast_unregister_during_notify
    (l1 l2 : Nat) (u u' : Nat → List Nat) (s : List Nat)
    (_hne : l1 ≠ l2) (hself : l2 ∈ u l2) :
    (l1 ∈ (Broadcast u (setInsert l2 (setInsert l1 []))).1 ∧
      l2 ∈ (Broadcast u (setInsert l2 (setInsert l1 []))).1) ∧
    l2 ∉ (Broadcast u (setInsert l2 (setInsert l1 []))).2 ∧
    l2 ∉ (Broadcast u' ((Broadcast u (setInsert l2 (setInsert l1 []))).2)).1 ∧
    setInsert l1 (setInsert l1 s) = setInsert l1 s ∧
    setErase l1 (setErase l1 s) = setErase l1 s ∧
    (l1 ∉ s → setErase l1 s = s) := by
  have hmem1 : l1 ∈ setInsert l2 (setInsert l1 []) :=
    mem_setInsert.mpr (Or.inr (mem_setInsert.mpr (Or.inl rfl)))
  have hmem2 : l2 ∈ setInsert l2 (setInsert l1 []) :=
    mem_setInsert.mpr (Or.inl rfl)
  have hlive : l2 ∉ (Broadcast u (setInsert l2 (setInsert l1 []))).2 :=
    broadcast_self_unregister u _ hmem2 hself
  refine ⟨⟨?_, ?_⟩, hlive, ?_, setInsert_idem l1 s, setErase_idem l1 s,
    fun h => setErase_of_notMem h⟩
  · rw [broadcast_delivered]; exact hmem1
  · rw [broadcast_delivered]; exact hmem2
  · rw [broadcast_delivered]; exact hlive

theorem broadcast_unregister_during_notify_witness :
    ((1 : Nat) ≠ 2 ∧ 2 ∈ unregSelfTwo 2) ∧
    ((1 ∈ (Broadcast unregSelfTwo (setInsert 2 (setInsert 1 []))).1 ∧
        2 ∈ (Broadcast unregSelfTwo (setInsert 2 (setInsert 1 []))).1) ∧
      2 ∉ (Broadcast unregSelfTwo (setInsert 2 (setInsert 1 []))).2 ∧
      2 ∉ (Broadcast unregNobody
            ((Broadcast unregSelfTwo (setInsert 2 (setInsert 1 []))).2)).1 ∧
      setInsert 1 (setInsert 1 [5]) = setInsert 1 [5] ∧
      setErase 1 (setErase 1 [5]) = setErase 1 [5] ∧
      ((1 : Nat) ∉ ([5] : List Nat) → setErase 1 [5] = [5])) :=
  ⟨⟨by decide, by decide⟩,
    broadcast_unregister_during_notify 1 2 unregSelfTwo unregNobody [5]
      (by decide) (by decide)⟩

/-- C9: for a non-null component `b`, `IsMouseCaptured` returns `true` exactly
when the capture slot is empty or holds `b`; in particular with an empty slot
it returns `true` for every component, so it distinguishes only the state
"captured by a different component". -/
theorem isMouseCaptured_nonnull_spec :
    ∀ (slot : Option Nat) (b : Nat),
      (IsMouseCaptured slot (some b) = true ↔ slot = none ∨ slot = some b) ∧
      IsMouseCaptured none (some b) = true := by
  intro slot b
  constructor
  · cases slot with
    | none => simp [IsMouseCaptured]
    | some h => simp [IsMouseCaptured]
  · rfl

/-- C4: the capture slot is a single pointer, so any captured state determines
a unique holder; an acquire by the current holder `a` succeeds (reentrant); an
acquire by a different component `b2` while `a` holds capture fails — the slot
still holds `a`, not `b2`; and after `a` releases, an acquire by `b2`
succeeds. -/
theorem captureMouse_exclusive (a b2 : Nat) (hab : a ≠ b2) :
    IsMouseCaptured (some a) (some b2) = false ∧
    CaptureMouse (some a) a true = some a ∧
    (CaptureMouse (some a) b2 true = some a ∧
      CaptureMouse (some a) b2 true ≠ some b2) ∧
    CaptureMouse (CaptureMouse (some a) a false) b2 true = some b2 := by
  refine ⟨?_, rfl, ⟨rfl, ?_⟩, ?_⟩
  · simp [IsMouseCaptured, hab]
  · intro h
    exact hab (Option.some.inj h)
  · simp [CaptureMouse]

theorem captureMouse_exclusive_witness :
    (1 : Nat) ≠ 2 ∧
    (IsMouseCaptured (some 1) (some 2) = false ∧
      CaptureMouse (some 1) 1 true = some 1 ∧
      (CaptureMouse (some 1) 2 true = some 1 ∧
        CaptureMouse (some 1) 2 true ≠ some 2) ∧
      CaptureMouse (CaptureMouse (some 1) 1 false) 2 true = some 2) :=
  ⟨by decide, captureMouse_exclusive 1 2 (by decide)⟩

theorem findFileBuffer_eq_none_mem {r : BufferRegistry} {p : String}
    (h : FindFileBuffer r p = none) :
    ∀ b ∈ r.buffers, b.filePath ≠ some p := by
  intro b hb
  have hnot := List.find?_eq_none.mp h b hb
  simpa using hnot

theorem pathUnique_reachable : ∀ r : BufferRegistry, ReachableReg r →
    pathUnique r := by
  intro r hr
  induction hr with
  | init => exact List.Pairwise.nil
  | getFile r p fl c _ ih =>
    unfold GetFileBuffer
    cases hfind : FindFileBuffer r p with
    | some b => simpa using ih
    | none =>
      cases c with
      | false => simpa using ih
      | true =>
        simp only [pathUnique]
        refine List.Pairwise.cons ?_ ih
        intro b hb q hq
        have : some p = some q := hq
        have hqp : q = p := (Option.some.inj this).symm
        subst hqp
        exact findFileBuffer_eq_none_mem hfind b hb
  | getEmpty r n fl _ ih =>
    simp only [pathUnique, GetEmptyBuffer]
    refine List.Pairwise.cons ?_ ih
    intro b hb q hq
    cases hq
  | remove r h _ ih =>
    exact List.Pairwise.sublist (List.filter_sublist _) ih

/-- C1: `GetFileBuffer` with `create` is an idempotent get-or-create — a
second call with the same normalized path returns the same buffer (same
identity) and the same registry — and in every reachable registry state no
two distinct registered buffers share a resolved file path. -/
theorem getFileBuffer_idempotent_dedup (r : BufferRegistry) (p : String)
    (fl fl' : Nat) (hr : ReachableReg r) :
    GetFileBuffer (GetFileBuffer r p fl true).2 p fl' true =
      GetFileBuffer r p fl true ∧
    pathUnique r := by
  refine ⟨?_, pathUnique_reachable r hr⟩
  cases hfind : FindFileBuffer r p with
  | some b =>
    simp [GetFileBuffer, hfind]
  | none =>
    have hfind2 : List.find? (fun b => b.filePath == some p) r.buffers = none := by
      simpa [FindFileBuffer] using hfind
    simp [GetFileBuffer, FindFileBuffer, hfind2, List.find?_cons]

theorem getFileBuffer_idempotent_dedup_witness :
    ReachableReg BufferRegistry.empty ∧
    (GetFileBuffer (GetFileBuffer BufferRegistry.empty "a" 0 true).2
        "a" 1 true =
      GetFileBuffer BufferRegistry.empty "a" 0 true ∧
    pathUnique BufferRegistry.empty) :=
  ⟨ReachableReg.init,
    getFileBuffer_idempotent_dedup BufferRegistry.empty "a" 0 1
      ReachableReg.init⟩

/-- C7: when no buffer is registered for path `p`, `GetFileBuffer` with
`create = false` returns a null result — it is a total function, so no fault
is raised — creates nothing, and leaves the registry unchanged. -/
theorem getFileBuffer_noCreate_noMutation (r : BufferRegistry) (p : String)
    (fl : Nat) (h : FindFileBuffer r p = none) :
    GetFileBuffer r p fl false = (none, r) := by
  simp [GetFileBuffer, h]

theorem getFileBuffer_noCreate_noMutation_witness :
    FindFileBuffer BufferRegistry.empty "a" = none ∧
    GetFileBuffer BufferRegistry.empty "a" 0 false =
      (none, BufferRegistry.empty) :=
  ⟨rfl, getFileBuffer_noCreate_noMutation BufferRegistry.empty "a" 0 rfl⟩

/-- C2: after `RemoveBuffer`, no window — across all tab windows — still
references the removed buffer, whatever the number of windows that viewed it
beforehand; and removing the last buffer (state `slast`, all of whose buffer
handles equal `hl`) leaves a valid empty state with no active buffer. -/
theorem removeBuffer_no_dangling (s slast : WindowState) (h hl : Nat)
    (hall : ∀ x ∈ slast.buffers, x = hl) :
    FindBufferWindows (RemoveBuffer s h) h = [] ∧
    (RemoveBuffer slast hl).buffers = [] ∧
    GetActiveBuffer (RemoveBuffer slast hl) = none := by
  refine ⟨?_, ?_⟩
  · unfold RemoveBuffer FindBufferWindows
    cases hh : (s.buffers.filter (fun x => x ≠ h)).head? with
    | some mru =>
      have hmru_ne : mru ≠ h := by
        cases hfl : s.buffers.filter (fun x => x ≠ h) with
        | nil => rw [hfl] at hh; cases hh
        | cons a t =>
          rw [hfl] at hh
          have ha : a = mru := by simpa using hh
          subst ha
          have : a ∈ s.buffers.filter (fun x => x ≠ h) := by
            rw [hfl]; exact List.mem_cons_self a t
          have := (List.mem_filter.mp this).2
          simpa using this
      simp only [hh]
      rw [List.filter_eq_nil_iff]
      intro a ha
      obtain ⟨w, _, rfl⟩ := List.mem_map.mp ha
      by_cases hwb : w.bufferHandle = h
      · simp [hwb, hmru_ne]
      · simp [hwb]
    | none =>
      simp only [hh]
      rw [List.filter_eq_nil_iff]
      intro a ha
      have := (List.mem_filter.mp ha).2
      simpa using this
  · have hrem : slast.buffers.filter (fun x => x ≠ hl) = [] := by
      rw [List.filter_eq_nil_iff]
      intro a ha
      simpa using hall a ha
    unfold RemoveBuffer
    rw [hrem]
    exact ⟨rfl, rfl⟩

theorem removeBuffer_no_dangling_witness :
    (∀ x ∈ (WindowState.mk [7] [ZepWindow.mk 0 7]).buffers, x = 7) ∧
    (FindBufferWindows
        (RemoveBuffer (WindowState.mk [7, 8] [ZepWindow.mk 0 7, ZepWindow.mk 1 7]) 7) 7 = [] ∧
      (RemoveBuffer (WindowState.mk [7] [ZepWindow.mk 0 7]) 7).buffers = [] ∧
      GetActiveBuffer (RemoveBuffer (WindowState.mk [7] [ZepWindow.mk 0 7]) 7) = none) :=
  ⟨by decide,
    removeBuffer_no_dangling
      (WindowState.mk [7, 8] [ZepWindow.mk 0 7, ZepWindow.mk 1 7])
      (WindowState.mk [7] [ZepWindow.mk 0 7]) 7 7 (by decide)⟩

/-- C5: registering an ex-command under a name already present fails and
leaves the registry unchanged — the previously registered command is still
the one `FindExCommand` returns, and every other lookup (`k`) is
untouched. -/
theorem registerExCommand_duplicate_noop (m : List (String × Nat))
    (strName k : String) (old cmd : Nat)
    (h : FindExCommand m strName = some old) :
    RegisterExCommand m strName cmd = m ∧
    FindExCommand (RegisterExCommand m strName cmd) strName = some old ∧
    FindExCommand (RegisterExCommand m strName cmd) k = FindExCommand m k := by
  have hreg : RegisterExCommand m strName cmd = m := by
    unfold RegisterExCommand
    rw [h]
  exact ⟨hreg, by rw [hreg, h], by rw [hreg]⟩

theorem registerExCommand_duplicate_noop_witness :
    FindExCommand [("w", 7)] "w" = some 7 ∧
    (RegisterExCommand [("w", 7)] "w" 9 = [("w", 7)] ∧
      FindExCommand (RegisterExCommand [("w", 7)] "w" 9) "w" = some 7 ∧
      FindExCommand (RegisterExCommand [("w", 7)] "w" 9) "x" =
        FindExCommand [("w", 7)] "x") :=
  ⟨by decide, registerExCommand_duplicate_noop [("w", 7)] "w" "x" 7 9 (by decide)⟩

theorem submitAll_sync :
    ∀ (jobs : List (Unit → Nat)) (c : List (Nat × Nat)) (n : Nat),
      SubmitAll ⟨true, c, [], n⟩ jobs =
        ⟨true, runJobs n c jobs, [], n + jobs.length⟩ := by
  intro jobs
  induction jobs with
  | nil => intro c n; rfl
  | cons w ws ih =>
    intro c n
    have hstep : SubmitAll ⟨true, c, [], n⟩ (w :: ws) =
        SubmitAll ⟨true, (n, w ()) :: c, [], n + 1⟩ ws := rfl
    rw [hstep, ih]
    have hlen : n + 1 + ws.length = n + (w :: ws).length := by
      simp [List.length_cons]
      omega
    rw [hlen]
    rfl

theorem submitAll_async :
    ∀ (jobs : List (Unit → Nat)) (c : List (Nat × Nat))
      (p : List (Nat × (Unit → Nat))) (n : Nat),
      SubmitAll ⟨false, c, p, n⟩ jobs =
        ⟨false, c, pendJobs n p jobs, n + jobs.length⟩ := by
  intro jobs
  induction jobs with
  | nil => intro c p n; rfl
  | cons w ws ih =>
    intro c p n
    have hstep : SubmitAll ⟨false, c, p, n⟩ (w :: ws) =
        SubmitAll ⟨false, c, (n, w) :: p, n + 1⟩ ws := rfl
    rw [hstep, ih]
    have hlen : n + 1 + ws.length = n + (w :: ws).length := by
      simp [List.length_cons]
      omega
    rw [hlen]
    rfl

theorem pendJobs_map_eval :
    ∀ (jobs : List (Unit → Nat)) (p : List (Nat × (Unit → Nat))) (n : Nat),
      (pendJobs n p jobs).map (fun kv => (kv.1, kv.2 ())) =
        runJobs n (p.map (fun kv => (kv.1, kv.2 ()))) jobs := by
  intro jobs
  induction jobs with
  | nil => intro p n; rfl
  | cons w ws ih =>
    intro p n
    simp only [pendJobs, runJobs]
    rw [ih]
    rfl

/-- C6: with `DisableThreads` set, a submitted unit of work executes
synchronously, so querying its handle immediately after submission observes
the result; and the observable submit/result behavior is equivalent to the
threads-enabled configuration — for any batch of jobs, querying any handle
in the drained threads-enabled pool agrees with the threads-disabled pool
both before and after its (no-op) drain. -/
theorem jobPool_sync_and_equiv (d : JobPool) (w : Unit → Nat)
    (jobs : List (Unit → Nat)) (k : Nat) (hsync : d.disableThreads = true) :
    QueryResult (Submit d w).2 (Submit d w).1 = some (w ()) ∧
    QueryResult (SubmitAll (mkJobPool true) jobs) k =
      QueryResult (Drain (SubmitAll (mkJobPool false) jobs)) k ∧
    QueryResult (Drain (SubmitAll (mkJobPool true) jobs)) k =
      QueryResult (Drain (SubmitAll (mkJobPool false) jobs)) k := by
  have hfalse : Drain (SubmitAll (mkJobPool false) jobs) =
      ⟨false, runJobs 0 [] jobs, [], 0 + jobs.length⟩ := by
    have h1 : SubmitAll (mkJobPool false) jobs =
        ⟨false, [], pendJobs 0 [] jobs, 0 + jobs.length⟩ :=
      submitAll_async jobs [] [] 0
    rw [show mkJobPool false = ⟨false, [], [], 0⟩ from rfl] at h1 ⊢
    rw [h1]
    unfold Drain
    simp only
    rw [pendJobs_map_eval]
    simp
  have htrue : SubmitAll (mkJobPool true) jobs =
      ⟨true, runJobs 0 [] jobs, [], 0 + jobs.length⟩ := by
    rw [show mkJobPool true = ⟨true, [], [], 0⟩ from rfl]
    exact submitAll_sync jobs [] 0
  refine ⟨?_, ?_, ?_⟩
  · unfold Submit
    rw [hsync]
    simp [QueryResult]
  · rw [htrue, hfalse]
    rfl
  · rw [htrue, hfalse]
    rfl

theorem jobPool_sync_and_equiv_witness :
    (mkJobPool true).disableThreads = true ∧
    (QueryResult (Submit (mkJobPool true) workA).2
        (Submit (mkJobPool true) workA).1 = some (workA ()) ∧
      QueryResult (SubmitAll (mkJobPool true) [workA, workB]) 0 =
        QueryResult (Drain (SubmitAll (mkJobPool false) [workA, workB])) 0 ∧
      QueryResult (Drain (SubmitAll (mkJobPool true) [workA, workB])) 0 =
        QueryResult (Drain (SubmitAll (mkJobPool false) [workA, workB])) 0) :=
  ⟨rfl, jobPool_sync_and_equiv (mkJobPool true) workA [workA, workB] 0 rfl⟩

theorem removePromote_cons (x : Nat) (xs : List Nat) (t : Nat) :
    removePromote (x :: xs) t =
      if x = t then (xs, xs.head?)
      else if xs.head? = some t then (x :: xs.tail, some x)
      else (x :: (removePromote xs t).1, (removePromote xs t).2) := rfl

theorem removePromote_append :
    ∀ (l₁ : List Nat) (t : Nat) (l₂ : List Nat), t ∉ l₁ →
      removePromote (l₁ ++ t :: l₂) t =
        (l₁ ++ l₂, firstSome l₁.getLast? l₂.head?) := by
  intro l₁
  induction l₁ with
  | nil =>
    intro t l₂ _
    simp [removePromote, firstSome]
  | cons a l₁x ih =>
    intro t l₂ h
    have hat : a ≠ t := by
      intro e
      exact h (by rw [← e]; exact List.mem_cons_self a l₁x)
    cases l₁x with
    | nil =>
      simp [removePromote, hat, firstSome]
    | cons b l₁y =>
      have hbt : t ∉ b :: l₁y := fun hb => h (List.mem_cons_of_mem a hb)
      have hb_ne : b ≠ t := by
        intro e
        exact hbt (by rw [← e]; exact List.mem_cons_self b l₁y)
      have hcond : ¬((b :: (l₁y ++ t :: l₂)).head? = some t) := by
        simp [hb_ne]
      have hih := ih t l₂ hbt
      rw [List.cons_append] at hih
      rw [List.cons_append, List.cons_append, removePromote_cons,
        if_neg hat, if_neg hcond, hih]
      simp [firstSome, List.getLast?_cons_cons]

theorem tabInv_reachable : ∀ s : TabState, ReachableTab s → TabInv s := by
  intro s hs
  induction hs with
  | init =>
    have h0 : EnsureTab ⟨[], none, 0⟩ = ⟨[0], some 0, 1⟩ := rfl
    rw [h0]
    refine ⟨by simp, by simp, by simp, ?_⟩
    intro t ht
    have := Option.some.inj ht
    rw [← this]
    simp
  | add s' _ ih =>
    obtain ⟨hne, hnd, hbd, _⟩ := ih
    simp only [AddTabWindow]
    refine ⟨by simp, ?_, ?_, ?_⟩
    · rw [List.nodup_append]
      refine ⟨hnd, List.nodup_singleton _, ?_⟩
      intro a ha hb
      have hb' : a = s'.nextId := by simpa using hb
      have := hbd a ha
      omega
    · intro x hx
      rcases List.mem_append.mp hx with hx | hx
      · exact Nat.lt_succ_of_lt (hbd x hx)
      · have hxe : x = s'.nextId := by simpa using hx
        rw [hxe]
        exact Nat.lt_succ_self _
    · intro u hu
      have := Option.some.inj hu
      rw [← this]
      simp
  | remove s' t _ ih =>
    obtain ⟨hne, hnd, hbd, hact⟩ := ih
    unfold RemoveTabWindow
    by_cases hmem : t ∈ s'.tabWindows
    · rw [if_pos hmem]
      obtain ⟨l₁, l₂, hsplit⟩ := List.append_of_mem hmem
      have hnd' : (l₁ ++ t :: l₂).Nodup := hsplit ▸ hnd
      have hcons := List.nodup_cons.mp (List.nodup_middle.mp hnd')
      have htn : t ∉ l₁ ++ l₂ := hcons.1
      have hnd2 : (l₁ ++ l₂).Nodup := hcons.2
      have ht1 : t ∉ l₁ := fun hx => htn (List.mem_append.mpr (Or.inl hx))
      rw [hsplit, removePromote_append l₁ t l₂ ht1]
      cases hl12 : l₁ ++ l₂ with
      | nil =>
        dsimp only
        have he : EnsureTab
            ⟨[], if s'.activeTab = some t then firstSome l₁.getLast? l₂.head?
                 else s'.activeTab, s'.nextId⟩ =
            ⟨[s'.nextId], some s'.nextId, s'.nextId + 1⟩ := rfl
        rw [he]
        refine ⟨by simp, by simp, by simp, ?_⟩
        intro u hu
        have := Option.some.inj hu
        rw [← this]
        simp
      | cons c cs =>
        dsimp only
        have hemp : (c :: cs).isEmpty = false := rfl
        have he : EnsureTab
            ⟨c :: cs, if s'.activeTab = some t
                      then firstSome l₁.getLast? l₂.head?
                      else s'.activeTab, s'.nextId⟩ =
            ⟨c :: cs, if s'.activeTab = some t
                      then firstSome l₁.getLast? l₂.head?
                      else s'.activeTab, s'.nextId⟩ := by
          unfold EnsureTab
          simp
        rw [he]
        refine ⟨by simp, hl12 ▸ hnd2, ?_, ?_⟩
        · intro x hx
          apply hbd
          rw [hsplit]
          rw [← hl12] at hx
          rcases List.mem_append.mp hx with hx | hx
          · exact List.mem_append.mpr (Or.inl hx)
          · exact List.mem_append.mpr (Or.inr (List.mem_cons_of_mem t hx))
        · intro u hu
          rw [← hl12]
          by_cases hat : s'.activeTab = some t
          · rw [if_pos hat] at hu
            cases hg : l₁.getLast? with
            | some g =>
              have hgu : g = u := by
                rw [hg] at hu
                exact Option.some.inj (by simpa [firstSome] using hu)
              rw [← hgu]
              exact List.mem_append.mpr
                (Or.inl (List.mem_of_mem_getLast? (Option.mem_def.mpr hg)))
            | none =>
              have hh : l₂.head? = some u := by
                rw [hg] at hu
                simpa [firstSome] using hu
              exact List.mem_append.mpr
                (Or.inr (List.mem_of_mem_head? (Option.mem_def.mpr hh)))
          · rw [if_neg hat] at hu
            have hu' := hact u hu
            rw [hsplit] at hu'
            rcases List.mem_append.mp hu' with h1 | h2
            · exact List.mem_append.mpr (Or.inl h1)
            · rcases List.mem_cons.mp h2 with he2 | h3
              · exact absurd (he2 ▸ hu) hat
              · exact List.mem_append.mpr (Or.inr h3)
    · rw [if_neg hmem]
      exact ⟨hne, hnd, hbd, hact⟩
  | setCurrent s' t _ ih =>
    obtain ⟨hne, hnd, hbd, hact⟩ := ih
    unfold SetCurrentTabWindow
    by_cases h : t ∈ s'.tabWindows
    · rw [if_pos h]
      exact ⟨hne, hnd, hbd, fun u hu => (Option.some.inj hu) ▸ h⟩
    · rw [if_neg h]
      exact ⟨hne, hnd, hbd, hact⟩
  | ensure s' _ ih =>
    have hemp : s'.tabWindows.isEmpty = false := by
      rcases hlist : s'.tabWindows with _ | ⟨c, cs⟩
      · exact absurd hlist ih.1
      · simp
    have : EnsureTab s' = s' := by
      unfold EnsureTab
      rw [hemp]
      simp
    rw [this]
    exact ih

/-- C8: in every state reachable after initialization, the tab-window
collection is non-empty and the active tab window, if any, is a member of
the collection; `RemoveTabWindow` applied to the active tab window promotes
the deterministic neighbor — the previous tab if one exists, else the next —
and when no neighbor remains (the removed tab was the only one),
`EnsureTab` at once creates a fresh tab window (identity `nextId`) that
becomes active, keeping the collection non-empty. -/
theorem tabWindow_invariant_and_promotion (s s2 : TabState) (t : Nat)
    (l₁ l₂ : List Nat) (hr : ReachableTab s) (hr2 : ReachableTab s2)
    (hact : s2.activeTab = some t) (hsplit : s2.tabWindows = l₁ ++ t :: l₂) :
    (s.tabWindows ≠ [] ∧ activeInCollection s) ∧
    (RemoveTabWindow s2 t).tabWindows ≠ [] ∧
    (RemoveTabWindow s2 t).activeTab =
      (match l₁.getLast?, l₂.head? with
        | some p, _ => some p
        | none, some nx => some nx
        | none, none => some s2.nextId) := by
  have hinv := tabInv_reachable s hr
  have hinv2 := tabInv_reachable s2 hr2
  have hmemcol : activeInCollection s := by
    unfold activeInCollection
    cases hs : s.activeTab with
    | none => trivial
    | some u => exact hinv.2.2.2 u hs
  refine ⟨⟨hinv.1, hmemcol⟩, ?_⟩
  have hmem : t ∈ s2.tabWindows := by
    rw [hsplit]
    exact List.mem_append.mpr (Or.inr (List.mem_cons_self t l₂))
  have ht1 : t ∉ l₁ := by
    have hnd : (l₁ ++ t :: l₂).Nodup := hsplit ▸ hinv2.2.1
    have := (List.nodup_cons.mp (List.nodup_middle.mp hnd)).1
    exact fun hx => this (List.mem_append.mpr (Or.inl hx))
  unfold RemoveTabWindow
  rw [if_pos hmem, hsplit, removePromote_append l₁ t l₂ ht1, if_pos hact]
  cases l₁ with
  | nil =>
    cases l₂ with
    | nil =>
      exact ⟨by simp [EnsureTab, AddTabWindow], rfl⟩
    | cons b bs =>
      exact ⟨by simp [EnsureTab], by simp [EnsureTab, firstSome]⟩
  | cons a as =>
    cases hg : (a :: as).getLast? with
    | none =>
      simp at hg
    | some g =>
      constructor
      · simp [EnsureTab]
      · simp only [List.cons_append]
        have hemp : (a :: (as ++ l₂)).isEmpty = false := rfl
        unfold EnsureTab
        rw [hemp]
        simp only [Bool.false_eq_true, if_false]
        simp [firstSome, hg]

theorem tabWindow_invariant_and_promotion_witness :
    (ReachableTab (EnsureTab ⟨[], none, 0⟩) ∧
      (EnsureTab ⟨[], none, 0⟩).activeTab = some 0 ∧
      (EnsureTab ⟨[], none, 0⟩).tabWindows = [] ++ 0 :: []) ∧
    (((EnsureTab ⟨[], none, 0⟩).tabWindows ≠ [] ∧
        activeInCollection (EnsureTab ⟨[], none, 0⟩)) ∧
      (RemoveTabWindow (EnsureTab ⟨[], none, 0⟩) 0).tabWindows ≠ [] ∧
      (RemoveTabWindow (EnsureTab ⟨[], none, 0⟩) 0).activeTab =
        (match ([] : List Nat).getLast?, ([] : List Nat).head? with
          | some p, _ => some p
          | none, some nx => some nx
          | none, none => some (EnsureTab ⟨[], none, 0⟩).nextId)) :=
  ⟨⟨ReachableTab.init, rfl, rfl⟩,
    tabWindow_invariant_and_promotion (EnsureTab ⟨[], none, 0⟩)
      (EnsureTab ⟨[], none, 0⟩) 0 [] [] ReachableTab.init ReachableTab.init
      rfl rfl⟩

end Zep
